import Mathlib

/-!
Verification of the `ezproto` code-generation toolkit (Go) against its
natural-language specification.

The development shallowly embeds the relevant parts of the source:

* `builder.go` — the `CodeBuilder` indentation-aware text accumulator and its
  scope primitives (`Line`, `EmptyLine`, `Block`, `Switch`,
  `SwitchBuilder.Case` / `SwitchBuilder.Default`, `Generate`);
* `file.go` — the schema facade (`File`, `Message`, `Field`, `Service`,
  `Enum`, `Oneof`, …) over a `protogen`/`protoreflect` descriptor tree, which
  we model as plain Lean structures mirroring the fields the facade reads;
* `plugin.go` — parameter parsing (`parseParameters`,
  `updateOptionsFromParams`), pattern matching (`matchesPattern`, which
  delegates to Go's `path/filepath.Match`, embedded here in full), and the
  generator registry (`GenerateFor`, the invocation loop of `Run`).

Go strings are modelled as `List Char` (runes) where character-level
processing matters, and as Lean `String` where only whole-string equality and
concatenation are used.  Go `map[string]T` values are modelled as association
lists without duplicate keys (`mapInsert` replaces in place, as Go map
assignment does); Go's unspecified map iteration order is modelled by
quantifying over permutations of the entry list.
-/

namespace EzProto

/-! ## CodeBuilder (builder.go)

`CodeBuilder` holds the accumulated `lines` and the current `indent` counter
(a Go `int`, modelled as `Int`).  `Line` renders `strings.Repeat("\t", indent)`
followed by the (already formatted) text. -/

structure CodeBuilder where
  lines : List String
  indent : Int
deriving DecidableEq, Repr

/-- A fresh builder, as produced by `Context.NewCodeBuilder`. -/
def CodeBuilder.init : CodeBuilder := { lines := [], indent := 0 }

/-- `strings.Repeat("\t", n)` for the current indent. -/
def indentStr (n : Int) : String := String.mk (List.replicate n.toNat '\t')

/-- `CodeBuilder.Line`: append one line prefixed with the indent string.
The Go method formats `format` with `args` first; we model the already
formatted text. -/
def CodeBuilder.lineOp (cb : CodeBuilder) (s : String) : CodeBuilder :=
  { cb with lines := cb.lines ++ [indentStr cb.indent ++ s] }

/-- `CodeBuilder.EmptyLine`: append `""` with no indent prefix. -/
def CodeBuilder.emptyLineOp (cb : CodeBuilder) : CodeBuilder :=
  { cb with lines := cb.lines ++ [""] }

/-!
The body callbacks passed to `Block`, `Switch`, `Case` and `Default` are Go
closures that talk to the same builder through its public API.  We embed the
programs such a callback can run as a deep syntax `BProg` and give it the
semantics of the corresponding Go methods.  `scase`/`sdefault` are the
operations of `SwitchBuilder` (meaningful inside a `Switch` body, where the
Go API makes a `SwitchBuilder` available). -/

inductive BProg : Type where
  /-- the empty callback body -/
  | nil : BProg
  | seq : BProg → BProg → BProg
  /-- `CodeBuilder.Line` (with the text already formatted) -/
  | line : String → BProg
  /-- `CodeBuilder.EmptyLine` -/
  | emptyLine : BProg
  /-- `CodeBuilder.Block(header, fn)` -/
  | block : String → BProg → BProg
  /-- `CodeBuilder.Switch(expr, fn)` -/
  | switchStmt : String → BProg → BProg
  /-- `SwitchBuilder.Case(value, fn)` -/
  | scase : String → BProg → BProg
  /-- `SwitchBuilder.Default(fn)` -/
  | sdefault : BProg → BProg
deriving DecidableEq, Repr

/-- Run a builder program on a `CodeBuilder` state, mirroring the Go methods:

* `Block`: `Line("%s {", header); indent++; fn(cb); indent--; Line("}")`;
* `Switch`: `Line("switch %s {", expr)` (or `"switch {"` when `expr` is
  empty); `indent++; fn(sb); indent--; Line("}")`;
* `Case`: `Line("case %s:", value); indent++; fn(cb); indent--` — no
  closing delimiter line;
* `Default`: `Line("default:"); indent++; fn(cb); indent--` — no closing
  delimiter line. -/
def BProg.run : BProg → CodeBuilder → CodeBuilder
  | .nil, cb => cb
  | .seq p q, cb => q.run (p.run cb)
  | .line s, cb => cb.lineOp s
  | .emptyLine, cb => cb.emptyLineOp
  | .block header p, cb =>
    let cb1 := cb.lineOp (header ++ " \x7b")
    let cb2 := { cb1 with indent := cb1.indent + 1 }
    let cb3 := p.run cb2
    let cb4 := { cb3 with indent := cb3.indent - 1 }
    cb4.lineOp "\x7d"
  | .switchStmt expr p, cb =>
    let cb1 := cb.lineOp (if expr ≠ "" then "switch " ++ expr ++ " \x7b" else "switch \x7b")
    let cb2 := { cb1 with indent := cb1.indent + 1 }
    let cb3 := p.run cb2
    let cb4 := { cb3 with indent := cb3.indent - 1 }
    cb4.lineOp "\x7d"
  | .scase v p, cb =>
    let cb1 := cb.lineOp ("case " ++ v ++ ":")
    let cb2 := { cb1 with indent := cb1.indent + 1 }
    let cb3 := p.run cb2
    { cb3 with indent := cb3.indent - 1 }
  | .sdefault p, cb =>
    let cb1 := cb.lineOp "default:"
    let cb2 := { cb1 with indent := cb1.indent + 1 }
    let cb3 := p.run cb2
    { cb3 with indent := cb3.indent - 1 }

/-- Every builder API operation leaves the indent counter where it found it:
each scope-opening construct pairs its `indent++` with an `indent--`
unconditionally. -/
theorem BProg.run_indent (p : BProg) (cb : CodeBuilder) :
    (p.run cb).indent = cb.indent := by
  induction p generalizing cb with
  | nil => rfl
  | seq p q ihp ihq => simp [BProg.run, ihp, ihq]
  | line s => rfl
  | emptyLine => rfl
  | block header p ih => simp [BProg.run, CodeBuilder.lineOp, ih]
  | switchStmt expr p ih => simp [BProg.run, CodeBuilder.lineOp, ih]
  | scase v p ih => simp [BProg.run, CodeBuilder.lineOp, ih]
  | sdefault p ih => simp [BProg.run, CodeBuilder.lineOp, ih]

/-- C2: For any nesting of `Block` calls, whatever the body callback emits
(zero lines, arbitrarily deep further nesting), the indent counter after the
outermost `Block` returns equals its value before the call; likewise for
`SwitchBuilder.Case` and `SwitchBuilder.Default` bodies. -/
theorem block_case_default_restore_indent (header value : String) (body : BProg)
    (cb : CodeBuilder) :
    ((BProg.block header body).run cb).indent = cb.indent ∧
    ((BProg.scase value body).run cb).indent = cb.indent ∧
    ((BProg.sdefault body).run cb).indent = cb.indent :=
  ⟨BProg.run_indent _ cb, BProg.run_indent _ cb, BProg.run_indent _ cb⟩

/-! ### The switch scenario (C5) -/

/-- A switch whose body registers two `Case` branches and a `Default`, each
emitting one line. -/
def switchScenario : BProg :=
  .switchStmt "x"
    (.seq (.scase "a" (.line "doA()"))
      (.seq (.scase "b" (.line "doB()"))
        (.sdefault (.line "doC()"))))

/-- Number of leading tab characters of a rendered line, i.e. its
indentation depth in output units. -/
def leadingTabs (s : String) : Nat := (s.toList.takeWhile (fun c => c = '\t')).length

/-- C5, counterexample: running the two-case-plus-default switch from a fresh
builder puts the case body lines two units deeper than the switch header
line, not one unit deeper as claimed: the header `switch x \x7b` has 0 leading
tabs and the first case body line has 2. -/
theorem switch_body_depth_counterexample :
    (switchScenario.run CodeBuilder.init).lines =
      ["switch x \x7b", "\tcase a:", "\t\tdoA()", "\tcase b:", "\t\tdoB()",
        "\tdefault:", "\t\tdoC()", "\x7d"] ∧
    leadingTabs "switch x \x7b" = 0 ∧
    leadingTabs "\t\tdoA()" = 2 ∧
    ¬ leadingTabs "\t\tdoA()" = leadingTabs "switch x \x7b" + 1 := by
  constructor
  · rfl
  · exact ⟨rfl, rfl, by decide⟩

/-- C5, amended: the switch scenario emits exactly eight lines — a header
line ending in an opening brace at the original depth, each `case`/`default`
label one unit deeper, each of the three body lines two units deeper than the
header (one unit deeper than its label), no delimiter lines around any
case/default body, and a closing brace line at the original depth. -/
theorem switch_scenario_output :
    (switchScenario.run CodeBuilder.init).lines =
      ["switch x \x7b", "\tcase a:", "\t\tdoA()", "\tcase b:", "\t\tdoB()",
        "\tdefault:", "\t\tdoC()", "\x7d"] ∧
    ((switchScenario.run CodeBuilder.init).lines.filter
        (fun l => leadingTabs l = 2)) = ["\t\tdoA()", "\t\tdoB()", "\t\tdoC()"] ∧
    ((switchScenario.run CodeBuilder.init).lines.filter
        (fun l => leadingTabs l = 1)) = ["\tcase a:", "\tcase b:", "\tdefault:"] ∧
    ((switchScenario.run CodeBuilder.init).lines.filter
        (fun l => leadingTabs l = 0)) = ["switch x \x7b", "\x7d"] := by
  refine ⟨rfl, ?_, ?_, ?_⟩ <;> decide

/-! ## Schema facade (file.go)

The facade wraps a `protogen` descriptor tree.  We model the parts of
`protogen`/`protoreflect` that `file.go` reads.  `protoreflect.Kind` and its
`String()` table, `Cardinality`, and the documented semantics of
`FieldDescriptor.IsMap` (equivalent to: Cardinality is Repeated, Kind is
MessageKind, and the referenced message reports IsMapEntry) come from the
`google.golang.org/protobuf` library the code links against. -/

/-- `protoreflect.Kind`. -/
inductive ProtoKind : Type where
  | boolKind | enumKind | int32Kind | sint32Kind | uint32Kind
  | int64Kind | sint64Kind | uint64Kind | sfixed32Kind | fixed32Kind
  | floatKind | sfixed64Kind | fixed64Kind | doubleKind | stringKind
  | bytesKind | messageKind | groupKind
deriving DecidableEq, Repr

/-- `protoreflect.Kind.String()`: the primitive kind's canonical name. -/
def ProtoKind.kindName : ProtoKind → String
  | .boolKind => "bool"
  | .enumKind => "enum"
  | .int32Kind => "int32"
  | .sint32Kind => "sint32"
  | .uint32Kind => "uint32"
  | .int64Kind => "int64"
  | .sint64Kind => "sint64"
  | .uint64Kind => "uint64"
  | .sfixed32Kind => "sfixed32"
  | .fixed32Kind => "fixed32"
  | .floatKind => "float"
  | .sfixed64Kind => "sfixed64"
  | .fixed64Kind => "fixed64"
  | .doubleKind => "double"
  | .stringKind => "string"
  | .bytesKind => "bytes"
  | .messageKind => "message"
  | .groupKind => "group"

/-- `protoreflect.Cardinality`. -/
inductive Cardinality : Type where
  | optional | required | repeated
deriving DecidableEq, Repr

/-- The part of `protoreflect.EnumDescriptor` the facade reads. -/
structure EnumDescriptor where
  fullName : String
deriving DecidableEq, Repr

/-- The part of `protoreflect.MessageDescriptor` the facade reads
(referenced-message full name and the map-entry marker). -/
structure MessageDescriptor where
  fullName : String
  isMapEntry : Bool
deriving DecidableEq, Repr

/-- The part of `protoreflect.FieldDescriptor` the facade reads.  `enum` is
`Desc.Enum()` (`none` models the nil descriptor returned for non-enum
fields), `message` is `Desc.Message()` (`none` for fields that are neither
message- nor group-kind). -/
structure FieldDescriptor where
  kind : ProtoKind
  cardinality : Cardinality
  hasOptionalKeyword : Bool
  enum : Option EnumDescriptor
  message : Option MessageDescriptor
deriving DecidableEq, Repr

/-- `protoreflect.FieldDescriptor.IsMap`, by its documented equivalence:
Cardinality is Repeated, Kind is MessageKind and the entry message reports
`IsMapEntry`. -/
def FieldDescriptor.isMap (fd : FieldDescriptor) : Bool :=
  fd.cardinality = .repeated && fd.kind = .messageKind &&
    (match fd.message with
      | some m => m.isMapEntry
      | none => false)

/-- The part of `protogen.Field` that `file.go` reads. -/
structure PGField where
  desc : FieldDescriptor
  name : String
  goName : String
deriving DecidableEq, Repr

/-- The part of `protogen.Oneof` that `file.go` reads. -/
structure PGOneof where
  name : String
  goName : String
  fields : List PGField
deriving DecidableEq, Repr

/-- The part of `protogen.Message` that `file.go` reads. -/
structure PGMessage where
  name : String
  goName : String
  fields : List PGField
  oneofs : List PGOneof
deriving DecidableEq, Repr

/-- The part of `protogen.EnumValue` that `file.go` reads. -/
structure PGEnumValue where
  name : String
  goName : String
  number : Int
deriving DecidableEq, Repr

/-- The part of `protogen.Enum` that `file.go` reads. -/
structure PGEnum where
  name : String
  goName : String
  fullName : String
  values : List PGEnumValue
deriving DecidableEq, Repr

/-- The part of `protogen.Method` that `file.go` reads. -/
structure PGMethod where
  name : String
  goName : String
deriving DecidableEq, Repr

/-- The part of `protogen.Service` that `file.go` reads. -/
structure PGService where
  name : String
  goName : String
  methods : List PGMethod
deriving DecidableEq, Repr

/-- The part of `protogen.File` that `file.go` reads. -/
structure PGFile where
  path : String
  messages : List PGMessage
  services : List PGService
  enums : List PGEnum
deriving DecidableEq, Repr

/-- `ezproto.Field`: wrapper over a `protogen.Field` plus the cached name. -/
structure Field where
  proto : PGField
  Name : String
deriving DecidableEq, Repr

/-- `Field.IsMap()`: `f.proto.Desc.IsMap()`. -/
def Field.IsMap (f : Field) : Bool := f.proto.desc.isMap

/-- `Field.IsEnum()`: `f.proto.Desc.Kind() == protoreflect.EnumKind`. -/
def Field.IsEnum (f : Field) : Bool := f.proto.desc.kind = .enumKind

/-- `Field.IsMessage()`: `f.proto.Desc.Kind() == protoreflect.MessageKind`. -/
def Field.IsMessage (f : Field) : Bool := f.proto.desc.kind = .messageKind

/-- `Field.IsRepeated()`: `Cardinality() == protoreflect.Repeated`. -/
def Field.IsRepeated (f : Field) : Bool := f.proto.desc.cardinality = .repeated

/-- `Field.Type()`: enum full name for enum fields, message full name for
message fields, otherwise `Kind().String()`.  The Go code dereferences
`Desc.Enum()` / `Desc.Message()`; `none` models the nil-pointer panic that a
malformed descriptor would cause. -/
def Field.Type (f : Field) : Option String :=
  if f.IsEnum then f.proto.desc.enum.map (fun e => e.fullName)
  else if f.IsMessage then f.proto.desc.message.map (fun m => m.fullName)
  else some f.proto.desc.kind.kindName

/-- `ezproto.Message` wrapper. -/
structure Message where
  proto : PGMessage
  Name : String
deriving DecidableEq, Repr

/-- `ezproto.Oneof` wrapper. -/
structure Oneof where
  proto : PGOneof
  Name : String
deriving DecidableEq, Repr

/-- `ezproto.Service` wrapper. -/
structure Service where
  proto : PGService
  Name : String
deriving DecidableEq, Repr

/-- `ezproto.Method` wrapper. -/
structure Method where
  proto : PGMethod
  Name : String
deriving DecidableEq, Repr

/-- `ezproto.Enum` wrapper. -/
structure Enum where
  proto : PGEnum
  Name : String
deriving DecidableEq, Repr

/-- `ezproto.EnumValue` wrapper. -/
structure EnumValue where
  proto : PGEnumValue
  Name : String
deriving DecidableEq, Repr

/-- `ezproto.File` wrapper. -/
structure File where
  proto : PGFile
  Name : String
deriving DecidableEq, Repr

/-- `File.Messages()`: wraps each `protogen` message in declaration order;
the loop `append`s to a slice that starts empty, so zero descriptor entries
yield the empty sequence. -/
def File.Messages (f : File) : List Message :=
  f.proto.messages.map (fun m => { proto := m, Name := m.name })

/-- `File.Services()`. -/
def File.Services (f : File) : List Service :=
  f.proto.services.map (fun s => { proto := s, Name := s.name })

/-- `File.Enums()`. -/
def File.Enums (f : File) : List Enum :=
  f.proto.enums.map (fun e => { proto := e, Name := e.name })

/-- `Message.Fields()`. -/
def Message.Fields (m : Message) : List Field :=
  m.proto.fields.map (fun fd => { proto := fd, Name := fd.name })

/-- `Message.Oneofs()`. -/
def Message.Oneofs (m : Message) : List Oneof :=
  m.proto.oneofs.map (fun o => { proto := o, Name := o.name })

/-- `Service.Methods()`. -/
def Service.Methods (s : Service) : List Method :=
  s.proto.methods.map (fun m => { proto := m, Name := m.name })

/-- `Enum.Values()`. -/
def Enum.Values (e : Enum) : List EnumValue :=
  e.proto.values.map (fun v => { proto := v, Name := v.name })

/-- `Oneof.Fields()`. -/
def Oneof.Fields (o : Oneof) : List Field :=
  o.proto.fields.map (fun fd => { proto := fd, Name := fd.name })

/-! ### Classification (C1) and type resolution (C8) -/

/-- A `map<string, string>` field: in `protoreflect`, a map field is a
repeated field of the synthetic map-entry message kind, so `Desc.Kind()` is
`MessageKind` and `Desc.IsMap()` is true. -/
def mapFieldEx : Field :=
  { proto :=
    { desc :=
      { kind := .messageKind
        cardinality := .repeated
        hasOptionalKeyword := false
        enum := none
        message := some { fullName := "pkg.Order.LabelsEntry", isMapEntry := true } }
      name := "labels"
      goName := "Labels" }
    Name := "labels" }

/-- An enum field `pkg.Color status`. -/
def enumFieldEx : Field :=
  { proto :=
    { desc :=
      { kind := .enumKind
        cardinality := .optional
        hasOptionalKeyword := false
        enum := some { fullName := "pkg.Color" }
        message := none }
      name := "status"
      goName := "Status" }
    Name := "status" }

/-- A (non-map) message field `pkg.Item item`. -/
def msgFieldEx : Field :=
  { proto :=
    { desc :=
      { kind := .messageKind
        cardinality := .optional
        hasOptionalKeyword := false
        enum := none
        message := some { fullName := "pkg.Item", isMapEntry := false } }
      name := "item"
      goName := "Item" }
    Name := "item" }

/-- A scalar field `int32 id`. -/
def scalarFieldEx : Field :=
  { proto :=
    { desc :=
      { kind := .int32Kind
        cardinality := .optional
        hasOptionalKeyword := false
        enum := none
        message := none }
      name := "id"
      goName := "Id" }
    Name := "id" }

/-- C1, counterexample: for a map field, `IsMap()` and `IsMessage()` are both
true simultaneously — a map field's `Kind()` is `MessageKind` — so the four
classifications are not mutually exclusive as claimed. -/
theorem map_field_two_classifications :
    Field.IsMap mapFieldEx = true ∧ Field.IsMessage mapFieldEx = true := by
  decide

/-- C1, amended: `IsEnum` and `IsMessage` are mutually exclusive and the
three-way split {IsEnum, IsMessage, scalar} is total; `IsMap` however implies
`IsMessage` (and excludes `IsEnum`), so the four-way classification
{IsMap, IsEnum, IsMessage, scalar} is exclusive only when `IsMap` is given
precedence over `IsMessage`. -/
theorem field_classification_exclusive (f : Field) :
    (¬ (f.IsEnum = true ∧ f.IsMessage = true)) ∧
    (f.IsMap = true → f.IsMessage = true ∧ f.IsEnum = false) ∧
    (f.IsEnum = true ∨ f.IsMessage = true ∨
      (f.IsEnum = false ∧ f.IsMessage = false ∧ f.IsMap = false)) := by
  obtain ⟨⟨⟨kind, card, opt, enum, msg⟩, n, gn⟩, N⟩ := f
  refine ⟨?_, ?_, ?_⟩ <;>
    cases kind <;>
      simp [Field.IsEnum, Field.IsMessage, Field.IsMap, FieldDescriptor.isMap]

/-- C1, witness for the amended theorem's implication, at the concrete map
field: its `IsMessage()` is true and `IsEnum()` is false. -/
theorem field_classification_exclusive_witness :
    Field.IsMessage mapFieldEx = true ∧ Field.IsEnum mapFieldEx = false :=
  (field_classification_exclusive mapFieldEx).2.1 (by decide)

/-- C8: `Field.Type()` returns the enum's full schema name for an enum field,
the referenced message's full schema name for a message field, and the
primitive kind's canonical name otherwise; the three outcomes are driven by
`Kind()`, which cannot be both `EnumKind` and `MessageKind`. -/
theorem field_type_resolution (f : Field) :
    (∀ e : EnumDescriptor, f.IsEnum = true → f.proto.desc.enum = some e →
      f.Type = some e.fullName) ∧
    (∀ m : MessageDescriptor, f.IsMessage = true → f.proto.desc.message = some m →
      f.Type = some m.fullName) ∧
    (f.IsEnum = false → f.IsMessage = false →
      f.Type = some f.proto.desc.kind.kindName) ∧
    ¬ (f.IsEnum = true ∧ f.IsMessage = true) := by
  refine ⟨?_, ?_, ?_, ?_⟩
  · intro e he hsome
    simp [Field.Type, he, hsome]
  · intro m hm hsome
    have he : f.IsEnum = false := by
      simp only [Field.IsMessage, decide_eq_true_eq] at hm
      simp [Field.IsEnum, hm]
    simp [Field.Type, he, hm, hsome]
  · intro he hm
    simp [Field.Type, he, hm]
  · rintro ⟨he, hm⟩
    simp only [Field.IsEnum, Field.IsMessage, decide_eq_true_eq] at he hm
    rw [he] at hm
    cases hm

/-- C8, witness: the three resolution outcomes at concrete enum, message and
scalar fields. -/
theorem field_type_resolution_witness :
    Field.Type enumFieldEx = some "pkg.Color" ∧
    Field.Type msgFieldEx = some "pkg.Item" ∧
    Field.Type scalarFieldEx = some "int32" :=
  ⟨(field_type_resolution enumFieldEx).1 { fullName := "pkg.Color" } (by decide) rfl,
   (field_type_resolution msgFieldEx).2.1 { fullName := "pkg.Item", isMapEntry := false }
     (by decide) rfl,
   (field_type_resolution scalarFieldEx).2.2.1 (by decide) (by decide)⟩

/-! ### Listing accessors (C4) -/

/-- C4: every listing accessor of the facade maps the underlying descriptor
list element-wise, so it yields one wrapper per descriptor entry and the
empty sequence — an actual (iterable) sequence value, the accessors are total
functions into `List` — when the underlying descriptor has zero elements. -/
theorem listing_accessors_empty (f : File) (m : Message) (s : Service)
    (e : Enum) (o : Oneof) :
    (f.Messages.length = f.proto.messages.length) ∧
    (f.Services.length = f.proto.services.length) ∧
    (f.Enums.length = f.proto.enums.length) ∧
    (m.Fields.length = m.proto.fields.length) ∧
    (m.Oneofs.length = m.proto.oneofs.length) ∧
    (s.Methods.length = s.proto.methods.length) ∧
    (e.Values.length = e.proto.values.length) ∧
    (o.Fields.length = o.proto.fields.length) ∧
    (f.proto.messages = [] → f.Messages = []) ∧
    (f.proto.services = [] → f.Services = []) ∧
    (f.proto.enums = [] → f.Enums = []) ∧
    (m.proto.fields = [] → m.Fields = []) ∧
    (m.proto.oneofs = [] → m.Oneofs = []) ∧
    (s.proto.methods = [] → s.Methods = []) ∧
    (e.proto.values = [] → e.Values = []) ∧
    (o.proto.fields = [] → o.Fields = []) := by
  refine ⟨?_, ?_, ?_, ?_, ?_, ?_, ?_, ?_, ?_, ?_, ?_, ?_, ?_, ?_, ?_, ?_⟩ <;>
    simp [File.Messages, File.Services, File.Enums, Message.Fields,
      Message.Oneofs, Service.Methods, Enum.Values, Oneof.Fields]

/-- An empty schema file. -/
def emptyFileEx : File :=
  { proto := { path := "empty.proto", messages := [], services := [], enums := [] }
    Name := "empty.proto" }

/-- A message, service, enum and oneof with zero children. -/
def emptyMessageEx : Message :=
  { proto := { name := "Empty", goName := "Empty", fields := [], oneofs := [] }
    Name := "Empty" }

def emptyServiceEx : Service :=
  { proto := { name := "Svc", goName := "Svc", methods := [] }, Name := "Svc" }

def emptyEnumEx : Enum :=
  { proto := { name := "E", goName := "E", fullName := "pkg.E", values := [] }
    Name := "E" }

def emptyOneofEx : Oneof :=
  { proto := { name := "o", goName := "O", fields := [] }, Name := "o" }

/-- C4, witness: on descriptors with zero elements every accessor yields the
empty sequence. -/
theorem listing_accessors_empty_witness :
    File.Messages emptyFileEx = [] ∧ Service.Methods emptyServiceEx = [] ∧
    Enum.Values emptyEnumEx = [] ∧ Message.Fields emptyMessageEx = [] ∧
    Oneof.Fields emptyOneofEx = [] :=
  ⟨(listing_accessors_empty emptyFileEx emptyMessageEx emptyServiceEx emptyEnumEx
      emptyOneofEx).2.2.2.2.2.2.2.2.1 rfl,
   (listing_accessors_empty emptyFileEx emptyMessageEx emptyServiceEx emptyEnumEx
      emptyOneofEx).2.2.2.2.2.2.2.2.2.2.2.2.2.1 rfl,
   (listing_accessors_empty emptyFileEx emptyMessageEx emptyServiceEx emptyEnumEx
      emptyOneofEx).2.2.2.2.2.2.2.2.2.2.2.2.2.2.1 rfl,
   (listing_accessors_empty emptyFileEx emptyMessageEx emptyServiceEx emptyEnumEx
      emptyOneofEx).2.2.2.2.2.2.2.2.2.2.2.1 rfl,
   (listing_accessors_empty emptyFileEx emptyMessageEx emptyServiceEx emptyEnumEx
      emptyOneofEx).2.2.2.2.2.2.2.2.2.2.2.2.2.2.2 rfl⟩

/-! ## Output sink and Generate (context.go, builder.go) -/

/-- The output sink (the `GeneratedFile` interface of context.go), recorded
as the trace of `P` calls: one entry per call, holding that call's argument
values. -/
structure SinkTrace where
  calls : List (List String)
deriving DecidableEq, Repr

/-- `GeneratedFile.P`: one write call, appending one rendered line. -/
def SinkTrace.P (s : SinkTrace) (args : List String) : SinkTrace :=
  { calls := s.calls ++ [args] }

/-- The part of `Context` that `CodeBuilder.Generate` touches: the lazily
created output sink. -/
structure Context where
  output : Option SinkTrace
deriving DecidableEq, Repr

/-- `Context.createOutputFile`: returns immediately when an output already
exists, otherwise creates a fresh output file (an empty write trace). -/
def Context.createOutputFile (c : Context) : Context :=
  match c.output with
  | some _ => c
  | none => { output := some { calls := [] } }

/-- `CodeBuilder.Generate`: if the context has no output yet, create one;
then `P` each accumulated line, in order, one call per line. -/
def CodeBuilder.generate (cb : CodeBuilder) (c : Context) : Context :=
  let c1 := if c.output.isSome then c else c.createOutputFile
  { output := some (cb.lines.foldl (fun s l => s.P [l]) (c1.output.getD { calls := [] })) }

theorem sinkTrace_eq_of_calls {a b : SinkTrace} (h : a.calls = b.calls) : a = b := by
  cases a
  cases b
  simpa using h

theorem foldl_P_calls (lines : List String) (s : SinkTrace) :
    (lines.foldl (fun t l => t.P [l]) s).calls =
      s.calls ++ lines.map (fun l => [l]) := by
  induction lines generalizing s with
  | nil => simp
  | cons l rest ih =>
    simp only [List.foldl_cons, List.map_cons]
    rw [ih]
    simp [SinkTrace.P]

/-- C9: `Generate` performs exactly one write call per accumulated line, in
append order; with an empty line buffer it performs zero write calls (an
existing sink is left untouched); when no sink exists yet it creates one and
writes the same sequence to it. -/
theorem generate_writes_in_order (cb : CodeBuilder) (s : SinkTrace) :
    (cb.generate { output := some s }).output =
      some { calls := s.calls ++ cb.lines.map (fun l => [l]) } ∧
    (cb.lines = [] → cb.generate { output := some s } = { output := some s }) ∧
    (cb.generate { output := none }).output =
      some { calls := cb.lines.map (fun l => [l]) } := by
  refine ⟨?_, ?_, ?_⟩
  · simp only [CodeBuilder.generate, Option.isSome_some, if_true, Option.getD_some,
      Option.some.injEq]
    exact sinkTrace_eq_of_calls (foldl_P_calls cb.lines s)
  · intro h
    simp [CodeBuilder.generate, h]
  · simp only [CodeBuilder.generate, Option.isSome_none, Bool.false_eq_true, if_false,
      Context.createOutputFile, Option.getD_some, Option.some.injEq]
    exact sinkTrace_eq_of_calls (foldl_P_calls cb.lines { calls := [] })

/-- C9, witness: a builder holding two lines makes exactly the two write
calls in order; the empty builder makes none. -/
theorem generate_writes_in_order_witness :
    (CodeBuilder.generate { lines := ["a", "b"], indent := 0 }
        { output := some { calls := [] } }).output =
      some { calls := [["a"], ["b"]] } ∧
    CodeBuilder.generate { lines := [], indent := 0 }
        { output := some { calls := [] } } =
      { output := some { calls := [] } } :=
  ⟨(generate_writes_in_order { lines := ["a", "b"], indent := 0 } { calls := [] }).1,
   (generate_writes_in_order { lines := [], indent := 0 } { calls := [] }).2.1 rfl⟩

/-! ## Go maps as association lists

Go `map[string]T` assignment `m[k] = v` replaces the value of an existing
key and otherwise adds the key; we model the map as an association list
without duplicate keys. -/

def mapInsert {α β : Type} [DecidableEq α] : List (α × β) → α → β → List (α × β)
  | [], k, v => [(k, v)]
  | (k0, v0) :: rest, k, v =>
    if k0 = k then (k, v) :: rest else (k0, v0) :: mapInsert rest k v

def mapLookup {α β : Type} [DecidableEq α] : List (α × β) → α → Option β
  | [], _ => none
  | (k0, v0) :: rest, k => if k0 = k then some v0 else mapLookup rest k

/-! ## Parameter parsing (plugin.go) -/

/-- Go `unicode.IsSpace`: the White_Space code points. -/
def goIsSpace (c : Char) : Bool :=
  (0x9 ≤ c.val && c.val ≤ 0xD) || c.val = 0x20 || c.val = 0x85 || c.val = 0xA0 ||
  c.val = 0x1680 || (0x2000 ≤ c.val && c.val ≤ 0x200A) || c.val = 0x2028 ||
  c.val = 0x2029 || c.val = 0x202F || c.val = 0x205F || c.val = 0x3000

/-- Go `strings.TrimSpace`. -/
def trimSpace (s : List Char) : List Char :=
  ((s.dropWhile goIsSpace).reverse.dropWhile goIsSpace).reverse

/-- Go `strings.SplitN(s, sep, 2)` for a one-character separator: `some`
(before, after) split at the first occurrence, `none` when the separator does
not occur (where Go returns the single-element slice). -/
def splitFirstAt (sep : Char) : List Char → Option (List Char × List Char)
  | [] => none
  | c :: rest =>
    if c = sep then some ([], rest)
    else (splitFirstAt sep rest).map (fun p => (c :: p.1, p.2))

/-- The parsed parameter map (Go `map[string]string`). -/
abbrev Params := List (List Char × List Char)

/-- One iteration of the `parseParameters` loop: a pair containing `=` is
split at the first `=` and both halves are trimmed; a bare token is stored
with value `"true"`. -/
def paramStep (params : Params) (pair : List Char) : Params :=
  match splitFirstAt '=' pair with
  | some kv => mapInsert params (trimSpace kv.1) (trimSpace kv.2)
  | none => mapInsert params (trimSpace pair) ("true".toList)

/-- `parseParameters`: empty input yields the empty map; otherwise the input
is split on commas and each pair is processed in order. -/
def parseParameters (parameter : List Char) : Params :=
  if parameter = [] then [] else (parameter.splitOn ',').foldl paramStep []

/-- `ezproto.Options` (plugin.go). -/
structure Options where
  Debug : Bool
  PackageMapping : List (List Char × List Char)
deriving DecidableEq, Repr

/-- The options a fresh plugin starts with (`NewPlugin`). -/
def newPluginOptions : Options := { Debug := false, PackageMapping := [] }

/-- One iteration of the `updateOptionsFromParams` loop: `debug` sets the
`Debug` flag to whether the value is `"true"` or `"1"`; `package_mapping`
with a value of the form `a:b` adds the mapping; every other key is
ignored. -/
def updateStep (opts : Options) (kv : List Char × List Char) : Options :=
  if kv.1 = "debug".toList then
    { opts with Debug := (kv.2 == "true".toList) || (kv.2 == "1".toList) }
  else if kv.1 = "package_mapping".toList then
    match splitFirstAt ':' kv.2 with
    | some ab => { opts with PackageMapping := mapInsert opts.PackageMapping ab.1 ab.2 }
    | none => opts
  else opts

/-- `Plugin.updateOptionsFromParams`: fold the update step over the parameter
map's entries.  (The per-key effects write disjoint state, so the Go map's
unspecified iteration order does not affect the result; we iterate in list
order.) -/
def updateOptionsFromParams (opts : Options) (params : Params) : Options :=
  params.foldl updateStep opts

theorem splitFirstAt_eq_none {sep : Char} {l : List Char} (h : sep ∉ l) :
    splitFirstAt sep l = none := by
  induction l with
  | nil => rfl
  | cons c rest ih =>
    have hc : ¬ c = sep := fun he => h (he ▸ List.mem_cons_self c rest)
    have hr : sep ∉ rest := fun he => h (List.mem_cons_of_mem c he)
    simp [splitFirstAt, hc, ih hr]

theorem updateStep_unrecognized (opts : Options) (kv : List Char × List Char)
    (h1 : kv.1 ≠ "debug".toList) (h2 : kv.1 ≠ "package_mapping".toList) :
    updateStep opts kv = opts := by
  unfold updateStep
  rw [if_neg h1, if_neg h2]

theorem updateOptions_unrecognized (opts : Options) (params : Params)
    (h : ∀ kv ∈ params, kv.1 ≠ "debug".toList ∧ kv.1 ≠ "package_mapping".toList) :
    updateOptionsFromParams opts params = opts := by
  induction params generalizing opts with
  | nil => rfl
  | cons kv rest ih =>
    have hkv := h kv (List.mem_cons_self kv rest)
    have : updateStep opts kv = opts := updateStep_unrecognized opts kv hkv.1 hkv.2
    simp only [updateOptionsFromParams, List.foldl_cons, this]
    exact ih opts (fun e he => h e (List.mem_cons_of_mem kv he))

/-- C7: parsing `"debug=true,package_mapping=foo.bar:mypkg"` stores both raw
pairs, and updating the options from it sets `Debug` and adds the
`foo.bar ↦ mypkg` entry; any comma token without `=` is inserted into the
raw map with value `"true"`; keys other than `debug` and `package_mapping`
leave the recognized options untouched (while staying in the raw map). -/
theorem parse_parameters_scenario :
    mapLookup (parseParameters ("debug=true,package_mapping=foo.bar:mypkg".toList))
        ("debug".toList) = some ("true".toList) ∧
    mapLookup (parseParameters ("debug=true,package_mapping=foo.bar:mypkg".toList))
        ("package_mapping".toList) = some ("foo.bar:mypkg".toList) ∧
    (updateOptionsFromParams newPluginOptions
        (parseParameters ("debug=true,package_mapping=foo.bar:mypkg".toList))).Debug
      = true ∧
    mapLookup (updateOptionsFromParams newPluginOptions
          (parseParameters ("debug=true,package_mapping=foo.bar:mypkg".toList))).PackageMapping
        ("foo.bar".toList) = some ("mypkg".toList) ∧
    (∀ params : Params, ∀ pair : List Char, ('=') ∉ pair →
      paramStep params pair = mapInsert params (trimSpace pair) ("true".toList)) ∧
    (∀ opts : Options, ∀ params : Params,
      (∀ kv ∈ params, kv.1 ≠ "debug".toList ∧ kv.1 ≠ "package_mapping".toList) →
      updateOptionsFromParams opts params = opts) := by
  refine ⟨by decide, by decide, by decide, by decide, ?_, ?_⟩
  · intro params pair h
    simp [paramStep, splitFirstAt_eq_none h]
  · exact updateOptions_unrecognized

/-- C7, witness: a bare token is stored as a boolean-true flag, and a map of
unrecognized keys leaves the default options unchanged. -/
theorem parse_parameters_scenario_witness :
    paramStep [] ("verbose".toList) = [("verbose".toList, "true".toList)] ∧
    updateOptionsFromParams newPluginOptions [("other".toList, "1".toList)]
      = newPluginOptions :=
  ⟨(parse_parameters_scenario.2.2.2.2.1) [] ("verbose".toList) (by decide),
   (parse_parameters_scenario.2.2.2.2.2) newPluginOptions [("other".toList, "1".toList)]
     (by decide)⟩

/-! ## Pattern matching (plugin.go, and Go `path/filepath.Match`)

`Plugin.matchesPattern` delegates to `filepath.Match` from the Go standard
library (on a non-Windows target, `Separator` is `/` and backslash escaping
is active), falling back to a substring test when the pattern is malformed.
We embed `filepath.Match` over rune lists; the byte-level scanning of the Go
original coincides with rune-level scanning on valid UTF-8 input because the
special characters are all ASCII. -/

/-- `getEsc`: read a possibly escaped character from a character-class
chunk.  Errors on an empty chunk, a leading `-` or `]`, a trailing
backslash, and when nothing follows the character (the class is then
unterminated). -/
def getEsc : List Char → Except Unit (Char × List Char)
  | [] => .error ()
  | c :: rest =>
    if c = '-' ∨ c = ']' then .error ()
    else if c = '\\' then
      match rest with
      | [] => .error ()
      | c2 :: rest2 => if rest2.isEmpty then .error () else .ok (c2, rest2)
    else if rest.isEmpty then .error () else .ok (c, rest)

theorem getEsc_length {l l' : List Char} {c : Char}
    (h : getEsc l = .ok (c, l')) : l'.length < l.length := by
  match l with
  | [] => simp [getEsc] at h
  | a :: rest =>
    simp only [getEsc] at h
    split at h
    · simp at h
    · split at h
      · split at h
        · simp at h
        · split at h
          · simp at h
          · simp only [Except.ok.injEq, Prod.mk.injEq] at h
            obtain ⟨h1, h2⟩ := h
            subst h2
            simp only [List.length_cons]
            omega
      · split at h
        · simp at h
        · simp only [Except.ok.injEq, Prod.mk.injEq] at h
          obtain ⟨h1, h2⟩ := h
          subst h2
          simp

/-- The range-parsing loop inside `matchChunk`'s character-class case:
consume `lo` (`-` `hi`) range specifications until the closing `]` (which
only closes after at least one range), recording whether the probed rune `r`
fell in any range. -/
def matchRanges (r : Char) (chunk : List Char) (matched : Bool) (nrange : Nat) :
    Except Unit (Bool × List Char) :=
  if chunk.head? = some ']' ∧ 0 < nrange then .ok (matched, chunk.tail)
  else
    match hlo : getEsc chunk with
    | .error e => .error e
    | .ok (lo, chunk1) =>
      match chunk1.head? with
      | some '-' =>
        match hhi : getEsc chunk1.tail with
        | .error e => .error e
        | .ok (hi, chunk2) =>
          have hlt1 : chunk1.length < chunk.length := getEsc_length hlo
          have hlt2 : chunk2.length < chunk1.tail.length := getEsc_length hhi
          have : chunk2.length < chunk.length := by
            have ht : chunk1.tail.length = chunk1.length - 1 := List.length_tail chunk1
            omega
          matchRanges r chunk2 (matched || (decide (lo ≤ r) && decide (r ≤ hi)))
            (nrange + 1)
      | _ =>
        have : chunk1.length < chunk.length := getEsc_length hlo
        matchRanges r chunk1 (matched || (decide (lo ≤ r) && decide (r ≤ lo)))
          (nrange + 1)
termination_by chunk.length

theorem matchRanges_length {r : Char} {chunk : List Char} {matched : Bool}
    {nrange : Nat} {out : Bool × List Char}
    (h : matchRanges r chunk matched nrange = .ok out) :
    out.2.length ≤ chunk.length := by
  induction chunk, matched, nrange using matchRanges.induct r generalizing out with
  | case1 chunk matched nrange hcond =>
    rw [matchRanges, if_pos hcond] at h
    simp only [Except.ok.injEq] at h
    subst h
    simp only [List.length_tail]
    omega
  | case2 chunk matched nrange hcond e hE =>
    rw [matchRanges, if_neg hcond] at h
    split at h
    · simp at h
    · rename_i lo1 chunk11 heq
      rw [hE] at heq
      simp at heq
  | case3 chunk matched nrange hcond lo chunk1 hlo hdash e hE =>
    rw [matchRanges, if_neg hcond] at h
    split at h
    · rename_i heq
      rw [hlo] at heq
      simp at heq
    · rename_i lo1 chunk11 heq
      rw [hlo] at heq
      simp only [Except.ok.injEq, Prod.mk.injEq] at heq
      obtain ⟨h1, h2⟩ := heq
      subst h1
      subst h2
      rw [hdash] at h
      simp only [] at h
      split at h
      · simp at h
      · rename_i hi1 chunk21 heq2
        rw [hE] at heq2
        simp at heq2
  | case4 chunk matched nrange hcond lo chunk1 hlo hdash hi chunk2 hhi hl1 hl2 hl3 ih =>
    rw [matchRanges, if_neg hcond] at h
    split at h
    · rename_i heq
      rw [hlo] at heq
      simp at heq
    · rename_i lo1 chunk11 heq
      rw [hlo] at heq
      simp only [Except.ok.injEq, Prod.mk.injEq] at heq
      obtain ⟨h1, h2⟩ := heq
      subst h1
      subst h2
      rw [hdash] at h
      simp only [] at h
      split at h
      · rename_i heq2
        rw [hhi] at heq2
        simp at heq2
      · rename_i hi1 chunk21 heq2
        rw [hhi] at heq2
        simp only [Except.ok.injEq, Prod.mk.injEq] at heq2
        obtain ⟨h3, h4⟩ := heq2
        subst h3
        subst h4
        exact le_trans (ih h) (le_of_lt hl3)
  | case5 chunk matched nrange hcond lo chunk1 hlo hl1 hnodash ih =>
    rw [matchRanges, if_neg hcond] at h
    split at h
    · rename_i heq
      rw [hlo] at heq
      simp at heq
    · rename_i lo1 chunk11 heq
      rw [hlo] at heq
      simp only [Except.ok.injEq, Prod.mk.injEq] at heq
      obtain ⟨h1, h2⟩ := heq
      subst h1
      subst h2
      split at h
      · rename_i hd
        exact absurd hd hnodash
      · exact le_trans (ih h) (le_of_lt hl1)

/-- The character-class step of `matchChunk` (the `'['` case of the Go
switch): strip an optional leading `^` (negation), run the range loop on the
probed rune, and hand back (negated, matched, remaining chunk). -/
def classStep (r : Char) (chunkRest : List Char) : Except Unit (Bool × Bool × List Char) :=
  match matchRanges r (if chunkRest.head? == some '^' then chunkRest.tail else chunkRest)
      false 0 with
  | .error e => .error e
  | .ok mo => .ok (chunkRest.head? == some '^', mo.1, mo.2)

theorem classStep_length {r : Char} {chunkRest : List Char}
    {out : Bool × Bool × List Char}
    (h : classStep r chunkRest = .ok out) : out.2.2.length ≤ chunkRest.length := by
  unfold classStep at h
  split at h
  · simp at h
  · rename_i mo heq
    simp only [Except.ok.injEq] at h
    subst h
    have h1 := matchRanges_length heq
    split at h1
    · have := List.length_tail chunkRest
      simp only []
      omega
    · simpa using h1

/-- `matchChunk`: match a chunk (no stars) against the beginning of `s`,
returning the remainder of `s` and whether it matched; after a mismatch it
keeps scanning the chunk for well-formedness errors without consuming `s`
(the `failed` flag).  Errors are `ErrBadPattern`.  The probed rune is the Go
zero rune when the match has already failed. -/
def matchChunk (chunk s : List Char) (failed : Bool) : Except Unit (List Char × Bool) :=
  match chunk with
  | [] => if failed then .ok ([], false) else .ok (s, true)
  | c :: chunkRest =>
    let failed1 := failed || s.isEmpty
    if c = '[' then
      match hmr : classStep (if failed1 then Char.ofNat 0 else s.headD (Char.ofNat 0))
          chunkRest with
      | .error e => .error e
      | .ok nmo =>
        matchChunk nmo.2.2 (if failed1 then s else s.tail) (failed1 || (nmo.2.1 == nmo.1))
    else if c = '?' then
      if failed1 then matchChunk chunkRest s failed1
      else matchChunk chunkRest s.tail (s.headD (Char.ofNat 0) == '/')
    else if c = '\\' then
      match chunkRest with
      | [] => .error ()
      | c2 :: chunkRest2 =>
        if failed1 then matchChunk chunkRest2 s failed1
        else matchChunk chunkRest2 s.tail (failed1 || !(c2 == s.headD (Char.ofNat 0)))
    else
      if failed1 then matchChunk chunkRest s failed1
      else matchChunk chunkRest s.tail (failed1 || !(c == s.headD (Char.ofNat 0)))
termination_by chunk.length
decreasing_by
  · have := classStep_length hmr
    simp only [List.length_cons]
    omega
  · simp
  · simp
  · simp only [List.length_cons]
    omega
  · simp only [List.length_cons]
    omega
  · simp
  · simp

/-- The leading-star loop of `scanChunk`: consume every leading `*`,
reporting whether there was at least one. -/
def stripStars : List Char → Bool × List Char
  | '*' :: rest => (true, (stripStars rest).2)
  | p => (false, p)

/-- The scan loop of `scanChunk`: copy characters into the chunk until an
unbracketed `*`; a backslash copies the following character blindly, `[` and
`]` toggle the in-class flag. -/
def chunkScan : List Char → Bool → List Char × List Char
  | [], _ => ([], [])
  | c :: rest, inrange =>
    if c = '\\' then
      match rest with
      | [] => ([c], [])
      | c2 :: rest2 =>
        let pr := chunkScan rest2 inrange
        (c :: c2 :: pr.1, pr.2)
    else if c = '[' then
      let pr := chunkScan rest true
      (c :: pr.1, pr.2)
    else if c = ']' then
      let pr := chunkScan rest false
      (c :: pr.1, pr.2)
    else if c = '*' then
      if inrange then
        let pr := chunkScan rest inrange
        (c :: pr.1, pr.2)
      else ([], c :: rest)
    else
      let pr := chunkScan rest inrange
      (c :: pr.1, pr.2)

/-- `scanChunk`: split the pattern into (saw a leading star, first chunk,
rest of pattern). -/
def scanChunk (pattern : List Char) : Bool × List Char × List Char :=
  ((stripStars pattern).1, chunkScan (stripStars pattern).2 false)

theorem chunkScan_rest_le (l : List Char) (b : Bool) :
    (chunkScan l b).2.length ≤ l.length := by
  induction l, b using chunkScan.induct with
  | case1 x => simp [chunkScan]
  | case2 inrange => rw [chunkScan.eq_def]; simp
  | case3 inrange c rest ih => rw [chunkScan.eq_def]; simp <;> omega
  | case4 rest inrange h1 ih => rw [chunkScan.eq_def]; simp <;> omega
  | case5 rest inrange h1 h2 ih => rw [chunkScan.eq_def]; simp <;> omega
  | case6 rest h1 h2 h3 ih => rw [chunkScan.eq_def]; simp <;> omega
  | case7 rest inrange hb h1 h2 h3 => rw [chunkScan.eq_def]; simp [hb] <;> omega
  | case8 c rest inrange h1 h2 h3 h4 ih =>
    rw [chunkScan.eq_def]
    simp [h1, h2, h3, h4] <;> omega

theorem chunkScan_cons_lt (l : List Char) (b : Bool) (hne : l ≠ [])
    (hstar : l.head? ≠ some '*') :
    (chunkScan l b).2.length < l.length := by
  induction l, b using chunkScan.induct with
  | case1 x => exact absurd rfl hne
  | case2 inrange => rw [chunkScan.eq_def]; simp
  | case3 inrange c rest ih =>
    rw [chunkScan.eq_def]
    have := chunkScan_rest_le rest inrange
    simp only [List.length_cons]
    simp
    omega
  | case4 rest inrange h1 ih =>
    rw [chunkScan.eq_def]
    have := chunkScan_rest_le rest true
    simp
    omega
  | case5 rest inrange h1 h2 ih =>
    rw [chunkScan.eq_def]
    have := chunkScan_rest_le rest false
    simp
    omega
  | case6 rest h1 h2 h3 ih => simp at hstar
  | case7 rest inrange hb h1 h2 h3 => simp at hstar
  | case8 c rest inrange h1 h2 h3 h4 ih =>
    rw [chunkScan.eq_def]
    have := chunkScan_rest_le rest inrange
    simp [h1, h2, h3, h4]
    omega

theorem stripStars_le (p : List Char) : (stripStars p).2.length ≤ p.length := by
  induction p using stripStars.induct with
  | case1 rest ih =>
    rw [stripStars.eq_def]
    simp only [List.length_cons]
    omega
  | case2 p h => rw [stripStars.eq_def]; simp_all

theorem stripStars_not_star (p : List Char) :
    (stripStars p).2.head? ≠ some '*' := by
  induction p using stripStars.induct with
  | case1 rest ih =>
    rw [stripStars.eq_def]
    simpa using ih
  | case2 p h =>
    rw [stripStars.eq_def]
    cases p with
    | nil => simp
    | cons c rest =>
      have hc : ¬ c = '*' := by
        intro hcc
        subst hcc
        exact h rest rfl
      simp only []
      simpa using hc

theorem stripStars_cons_star (rest : List Char) :
    (stripStars ('*' :: rest)).2 = (stripStars rest).2 := by
  rw [stripStars.eq_def]
  simp

theorem stripStars_no_star {c : Char} (rest : List Char) (hc : ¬ c = '*') :
    stripStars (c :: rest) = (false, c :: rest) := by
  rw [stripStars.eq_def]
  split
  · rename_i rest2 heq
    cases heq
    exact absurd rfl hc
  · rfl

theorem scanChunk_rest_length (pattern : List Char) (hne : pattern ≠ []) :
    (scanChunk pattern).2.2.length < pattern.length := by
  unfold scanChunk
  match pattern with
  | [] => exact absurd rfl hne
  | c :: rest =>
    by_cases hc : c = '*'
    · subst hc
      calc (chunkScan (stripStars ('*' :: rest)).2 false).2.length
          ≤ (stripStars ('*' :: rest)).2.length := chunkScan_rest_le _ _
        _ = (stripStars rest).2.length := by rw [stripStars_cons_star]
        _ ≤ rest.length := stripStars_le rest
        _ < ('*' :: rest).length := by simp
    · rw [stripStars_no_star rest hc]
      exact chunkScan_cons_lt (c :: rest) false (by simp) (by simpa using hc)

/-- The star loop of `Match`: try matching the chunk at each later position
of `name` (never skipping past a `/`); `some t` is a successful match
leaving remainder `t`, `none` means the loop ran out. -/
def starLoop (chunk rest name : List Char) : Except Unit (Option (List Char)) :=
  match name with
  | [] => .ok none
  | c :: s1 =>
    if c = '/' then .ok none
    else
      match matchChunk chunk s1 false with
      | .error e => .error e
      | .ok (t, ok) =>
        if ok then
          if rest = [] ∧ t ≠ [] then starLoop chunk rest s1
          else .ok (some t)
        else starLoop chunk rest s1

/-- The final loop of `Match`: before returning a non-error false, check the
remaining pattern chunk by chunk for syntax errors (matching each against the
empty string). -/
def checkRestValid (pattern : List Char) : Except Unit Bool :=
  if hne : pattern = [] then .ok false
  else
    match matchChunk (scanChunk pattern).2.1 [] false with
    | .error e => .error e
    | .ok _ =>
      have := scanChunk_rest_length pattern hne
      checkRestValid (scanChunk pattern).2.2
termination_by pattern.length

/-- Go `path/filepath.Match` (non-Windows): `.ok` is the match result,
`.error` is `ErrBadPattern`.  A trailing bare star matches exactly when the
remaining name has no separator; a chunk match is accepted directly only if
it exhausts the name or pattern remains; a star otherwise retries at later
positions up to the first separator. -/
def goMatch (pattern name : List Char) : Except Unit Bool :=
  if hne : pattern = [] then .ok name.isEmpty
  else
    if (scanChunk pattern).1 ∧ (scanChunk pattern).2.1 = [] then
      .ok (!(name.contains '/'))
    else
      match matchChunk (scanChunk pattern).2.1 name false with
      | .error e => .error e
      | .ok (t, ok) =>
        if ok ∧ (t = [] ∨ (scanChunk pattern).2.2 ≠ []) then
          have := scanChunk_rest_length pattern hne
          goMatch (scanChunk pattern).2.2 t
        else
          if (scanChunk pattern).1 then
            match starLoop (scanChunk pattern).2.1 (scanChunk pattern).2.2 name with
            | .error e => .error e
            | .ok (some t2) =>
              have := scanChunk_rest_length pattern hne
              goMatch (scanChunk pattern).2.2 t2
            | .ok none => checkRestValid (scanChunk pattern).2.2
          else checkRestValid (scanChunk pattern).2.2
termination_by pattern.length

/-- Go `strings.Contains`: `sub` occurs as a contiguous substring of `s`. -/
def strContains : List Char → List Char → Bool
  | [], sub => sub.isEmpty
  | c :: s1, sub => sub.isPrefixOf (c :: s1) || strContains s1 sub

/-- Go `strings.TrimSuffix(pattern, "*")`: drop one trailing `*` if
present. -/
def trimSuffixStar (p : List Char) : List Char :=
  if p.getLast? = some '*' then p.dropLast else p

/-- `Plugin.matchesPattern`: the shorthand patterns `*` and `*.proto` match
unconditionally; otherwise delegate to `filepath.Match`; a malformed pattern
falls back to the substring test against the pattern with a trailing `*`
stripped. -/
def matchesPattern (path pattern : String) : Bool :=
  if pattern = "*" ∨ pattern = "*.proto" then true
  else
    match goMatch pattern.toList path.toList with
    | .ok m => m
    | .error _ => strContains path.toList (trimSuffixStar pattern.toList)

/-- C6: `matchesPattern` returns true on every path for the patterns `*` and
`*.proto`; for any other pattern it returns exactly the `filepath.Match`
result when that succeeds, and on a malformed pattern (a `Match` error) it
returns whether the path contains the pattern with one trailing `*`
stripped. -/
theorem matchesPattern_spec (path pattern : String) :
    matchesPattern path "*" = true ∧
    matchesPattern path "*.proto" = true ∧
    (pattern ≠ "*" → pattern ≠ "*.proto" →
      (∀ m : Bool, goMatch pattern.toList path.toList = .ok m →
        matchesPattern path pattern = m) ∧
      (∀ e : Unit, goMatch pattern.toList path.toList = .error e →
        matchesPattern path pattern =
          strContains path.toList (trimSuffixStar pattern.toList))) := by
  refine ⟨by simp [matchesPattern], by simp [matchesPattern], ?_⟩
  intro h1 h2
  constructor
  · intro m hm
    simp only [String.toList] at hm
    simp [matchesPattern, h1, h2, hm]
  · intro e he
    simp only [String.toList] at he
    simp [matchesPattern, h1, h2, he]

/-- C6, witness: the universal patterns on a path with directories and odd
characters; a well-formed glob on a matching and a non-matching path; the
malformed pattern `[` falling back to the substring test, positively and
negatively. -/
theorem matchesPattern_spec_witness :
    matchesPattern "dir/sub/some file!.txt" "*" = true ∧
    matchesPattern "dir/sub/x y?.proto" "*.proto" = true ∧
    matchesPattern "a.go" "*.go" = true ∧
    matchesPattern "dir/a.go" "*.go" = false ∧
    matchesPattern "a[b.proto" "[" = true ∧
    matchesPattern "ab.proto" "[" = false := by
  have e1 : goMatch "*.go".toList "a.go".toList = .ok true := by
    simp [goMatch, scanChunk, stripStars, chunkScan, matchChunk, classStep,
      matchRanges, starLoop, checkRestValid, getEsc, String.toList]
  have e2 : goMatch "*.go".toList "dir/a.go".toList = .ok false := by
    simp [goMatch, scanChunk, stripStars, chunkScan, matchChunk, classStep,
      matchRanges, starLoop, checkRestValid, getEsc, String.toList]
  have hv : matchRanges 'a' [] false 0 = .error () := by simp [matchRanges, getEsc]
  have e3 : goMatch "[".toList "a[b.proto".toList = .error () := by
    simp [goMatch, scanChunk, stripStars, chunkScan, matchChunk, classStep,
      starLoop, checkRestValid, getEsc, String.toList]
    split
    · simp
    · rename_i mo heq
      rw [hv] at heq
      simp at heq
  have e4 : goMatch "[".toList "ab.proto".toList = .error () := by
    simp [goMatch, scanChunk, stripStars, chunkScan, matchChunk, classStep,
      starLoop, checkRestValid, getEsc, String.toList]
    split
    · simp
    · rename_i mo heq
      rw [hv] at heq
      simp at heq
  refine ⟨(matchesPattern_spec "dir/sub/some file!.txt" "*").1,
    (matchesPattern_spec "dir/sub/x y?.proto" "*").2.1,
    ((matchesPattern_spec "a.go" "*.go").2.2 (by decide) (by decide)).1 true e1,
    ((matchesPattern_spec "dir/a.go" "*.go").2.2 (by decide) (by decide)).1 false e2,
    Eq.trans (((matchesPattern_spec "a[b.proto" "[").2.2 (by decide) (by decide)).2 () e3)
      (by decide),
    Eq.trans (((matchesPattern_spec "ab.proto" "[").2.2 (by decide) (by decide)).2 () e4)
      (by decide)⟩

/-! ## Generator registry and the Run loop (plugin.go)

`Plugin.generators` is a Go `map[string]GeneratorFunc`; callbacks are
identified abstractly.  Go leaves map iteration order unspecified, so the
invocation loop of `Run` is modelled against an arbitrary permutation
`iter` of the registry's entries. -/

/-- `Plugin.GenerateFor`: `p.generators[pattern] = generator` (map
assignment: replaces the callback of an existing pattern). -/
def generateFor {α : Type} (g : List (String × α)) (pattern : String)
    (generator : α) : List (String × α) :=
  mapInsert g pattern generator

/-- The per-file generator loop of `Plugin.Run`: iterate the registry in the
(unspecified) order `iter` and invoke each callback whose pattern matches
the file's path, in that order. -/
def runFileInvocations {α : Type} (iter : List (String × α)) (path : String) :
    List (String × α) :=
  iter.filter (fun e => matchesPattern path e.1)

theorem mapLookup_mapInsert {α β : Type} [DecidableEq α]
    (g : List (α × β)) (k : α) (v : β) :
    mapLookup (mapInsert g k v) k = some v := by
  induction g with
  | nil => simp [mapInsert, mapLookup]
  | cons kv rest ih =>
    by_cases hk : kv.1 = k
    · simp [mapInsert, mapLookup, hk]
    · simp [mapInsert, mapLookup, hk, ih]

theorem mapInsert_mem {α β : Type} [DecidableEq α]
    (g : List (α × β)) (k : α) (v : β) : (k, v) ∈ mapInsert g k v := by
  induction g with
  | nil => simp [mapInsert]
  | cons kv rest ih =>
    by_cases hk : kv.1 = k
    · simp [mapInsert, hk]
    · simp only [mapInsert]
      rw [if_neg hk]
      exact List.mem_cons_of_mem kv ih

theorem mapInsert_keys_mem {α β : Type} [DecidableEq α]
    {g : List (α × β)} {k x : α} {v : β}
    (h : x ∈ (mapInsert g k v).map Prod.fst) :
    x ∈ g.map Prod.fst ∨ x = k := by
  induction g with
  | nil => simpa [mapInsert] using h
  | cons kv rest ih =>
    by_cases hk : kv.1 = k
    · simp only [mapInsert] at h
      rw [if_pos hk] at h
      simp only [List.map_cons, List.mem_cons] at h
      rcases h with h | h
      · right; exact h
      · left; simp [h]
    · simp only [mapInsert] at h
      rw [if_neg hk] at h
      simp only [List.map_cons, List.mem_cons] at h
      rcases h with h | h
      · left; simp [h]
      · rcases ih h with h2 | h2
        · left; simp [h2]
        · right; exact h2

theorem mapInsert_keys_nodup {α β : Type} [DecidableEq α]
    {g : List (α × β)} (k : α) (v : β) (h : (g.map Prod.fst).Nodup) :
    ((mapInsert g k v).map Prod.fst).Nodup := by
  induction g with
  | nil => simp [mapInsert]
  | cons kv rest ih =>
    simp only [List.map_cons, List.nodup_cons] at h
    by_cases hk : kv.1 = k
    · simp only [mapInsert]
      rw [if_pos hk]
      simp only [List.map_cons, List.nodup_cons]
      exact ⟨by rw [← hk]; exact h.1, h.2⟩
    · simp only [mapInsert]
      rw [if_neg hk]
      simp only [List.map_cons, List.nodup_cons]
      refine ⟨?_, ih h.2⟩
      intro hmem
      rcases mapInsert_keys_mem hmem with h2 | h2
      · exact h.1 h2
      · exact hk h2

theorem mapLookup_eq_of_mem {α β : Type} [DecidableEq α]
    {m : List (α × β)} {k : α} {v : β}
    (hnd : (m.map Prod.fst).Nodup) (hmem : (k, v) ∈ m) :
    mapLookup m k = some v := by
  induction m with
  | nil => cases hmem
  | cons kv rest ih =>
    simp only [List.map_cons, List.nodup_cons] at hnd
    rcases List.mem_cons.mp hmem with h | h
    · subst h
      simp [mapLookup]
    · have hk : ¬ kv.1 = k := by
        intro he
        exact hnd.1 (he ▸ (List.mem_map.mpr ⟨(k, v), h, rfl⟩))
      simp [mapLookup, hk, ih hnd.2 h]

/-- C3, counterexample: with callbacks 1 and 2 registered for the patterns
`*` and `*.proto` in that order (both match every path), the map iteration
order that lists the second entry first is a permutation of the registry,
and under it `Run` invokes the callbacks as `[2, 1]` — not in registration
order `[1, 2]`. -/
theorem run_order_counterexample :
    List.Perm [("*.proto", 2), ("*", 1)]
      (generateFor (generateFor ([] : List (String × Nat)) "*" 1) "*.proto" 2) ∧
    runFileInvocations [("*.proto", 2), ("*", 1)] "a.proto" ≠
      runFileInvocations
        (generateFor (generateFor ([] : List (String × Nat)) "*" 1) "*.proto" 2)
        "a.proto" := by
  constructor
  · exact List.Perm.swap _ _ _
  · decide

/-- C3, amended: for every admissible iteration order (a permutation of the
registry), `Run` invokes exactly the callbacks whose pattern matches the
file's path — each exactly once (a permutation of the matching entries), and
nothing else — but in the unspecified map iteration order rather than
registration order. -/
theorem run_invokes_matching {α : Type} (g iter : List (String × α))
    (path : String) (h : iter.Perm g) :
    (runFileInvocations iter path).Perm (runFileInvocations g path) ∧
    (∀ e ∈ g, matchesPattern path e.1 = true → e ∈ runFileInvocations iter path) ∧
    (∀ e, e ∈ runFileInvocations iter path ↔
      e ∈ iter ∧ matchesPattern path e.1 = true) := by
  refine ⟨h.filter _, ?_, ?_⟩
  · intro e he hm
    exact List.mem_filter.mpr ⟨h.mem_iff.mpr he, by simpa using hm⟩
  · intro e
    constructor
    · intro he
      have := List.mem_filter.mp he
      exact ⟨this.1, by simpa using this.2⟩
    · intro ⟨h1, h2⟩
      exact List.mem_filter.mpr ⟨h1, by simpa using h2⟩

/-- C3, witness for the amended theorem: with `*` registered before
`*.proto` and the reversed iteration order, both callbacks are still invoked
on `a.proto`, exactly once each. -/
theorem run_invokes_matching_witness :
    runFileInvocations [("*.proto", 2), ("*", 1)] "a.proto" =
      [("*.proto", 2), ("*", 1)] ∧
    ("*", 1) ∈ runFileInvocations [("*.proto", (2 : Nat)), ("*", 1)] "a.proto" := by
  constructor
  · decide
  · exact (run_invokes_matching
      (generateFor (generateFor ([] : List (String × Nat)) "*" 1) "*.proto" 2)
      [("*.proto", 2), ("*", 1)] "a.proto" (List.Perm.swap _ _ _)).2.1
      ("*", 1) (by decide) (by decide)

/-- C10: registering a second callback under an already-registered pattern
replaces the first: the registry keeps at most one entry per pattern
(no-duplicate-keys invariant), looking the pattern up yields the second
callback, and on a matching file every invocation for that pattern runs the
second callback, never the first. -/
theorem generateFor_replaces {α : Type} (g : List (String × α)) (p : String)
    (f1 f2 : α) (iter : List (String × α)) (path : String)
    (hnd : (g.map Prod.fst).Nodup)
    (hperm : iter.Perm (generateFor (generateFor g p f1) p f2))
    (hmatch : matchesPattern path p = true) :
    mapLookup (generateFor (generateFor g p f1) p f2) p = some f2 ∧
    ((generateFor (generateFor g p f1) p f2).map Prod.fst).Nodup ∧
    (p, f2) ∈ runFileInvocations iter path ∧
    (∀ f, (p, f) ∈ runFileInvocations iter path → f = f2) := by
  have hnd2 : ((generateFor (generateFor g p f1) p f2).map Prod.fst).Nodup :=
    mapInsert_keys_nodup p f2 (mapInsert_keys_nodup p f1 hnd)
  refine ⟨mapLookup_mapInsert _ p f2, hnd2, ?_, ?_⟩
  · exact List.mem_filter.mpr
      ⟨hperm.mem_iff.mpr (mapInsert_mem _ p f2), by simpa using hmatch⟩
  · intro f hf
    have hmem : (p, f) ∈ generateFor (generateFor g p f1) p f2 :=
      hperm.mem_iff.mp (List.mem_filter.mp hf).1
    have h1 := mapLookup_eq_of_mem hnd2 hmem
    have h2 : mapLookup (generateFor (generateFor g p f1) p f2) p = some f2 :=
      mapLookup_mapInsert _ p f2
    rw [h1] at h2
    exact Option.some.inj h2

/-- C10, witness: registering callback 1 then callback 2 for `*` leaves a
single-entry registry whose lookup and invocation both yield callback 2. -/
theorem generateFor_replaces_witness :
    mapLookup (generateFor (generateFor ([] : List (String × Nat)) "*" 1) "*" 2) "*"
      = some 2 ∧
    ("*", (2 : Nat)) ∈ runFileInvocations [("*", (2 : Nat))] "x.proto" := by
  have h := generateFor_replaces ([] : List (String × Nat)) "*" 1 2
    [("*", 2)] "x.proto" (by decide) (by decide) (by decide)
  exact ⟨h.1, h.2.2.1⟩

end EzProto
